import Mathlib

set_option maxHeartbeats 1000000

namespace VelvetAir

/-- Whitespace test matching Python's str.strip and the regex class for
whitespace on the inputs that occur here: ASCII whitespace plus the
no-break space (the only non-ASCII whitespace in the scraped pages). -/
def isPySpace (c : Char) : Bool :=
  c = ' ' || c = '\t' || c = '\n' || c = '\r' || c = '\x0b' || c = '\x0c' || c = '\xa0'

/-- Value of a run of decimal digit characters, as Python int() on a digit string. -/
def natOfDigits (l : List Char) : Nat :=
  l.foldl (fun n c => 10 * n + (c.toNat - 48)) 0

/-- First maximal run of digits anywhere in the list: the first match of the
digit-run regex used by clean_seats in src/scraper.py. -/
def firstDigitRun : List Char → Option (List Char)
  | [] => none
  | c :: cs => if c.isDigit then some (c :: cs.takeWhile Char.isDigit) else firstDigitRun cs

/-- clean_seats from src/scraper.py: the first contiguous digit run as an
integer, defaulting to 0 when the string is empty or has no digits. -/
def clean_seats (seats_str : String) : Nat :=
  if seats_str = "" then 0
  else
    match firstDigitRun seats_str.data with
    | some run => natOfDigits run
    | none => 0

def isDigitOrDot (c : Char) : Bool := c.isDigit || c = '.'

/-- Python float() restricted to strings of digits and dots, which are the only
characters the substitution in clean_price lets through: the string parses
iff it has at most one dot and at least one digit, and its value (taken as an
exact rational) is the integer part plus the fractional digits scaled down:
mkRat (ip * 10 ^ k + fp) (10 ^ k) equals ip + fp / 10 ^ k. -/
def pyFloatDD (l : List Char) : Option Rat :=
  if l.count '.' ≤ 1 ∧ l.any Char.isDigit then
    let ip := l.takeWhile (fun c => ¬ (c = '.'))
    let fp := (l.dropWhile (fun c => ¬ (c = '.'))).drop 1
    some (mkRat (natOfDigits ip * 10 ^ fp.length + natOfDigits fp) (10 ^ fp.length))
  else none

/-- clean_price from src/scraper.py: empty input gives nothing, otherwise every
character that is not a digit or a dot is stripped and the remainder is
parsed as a Python float (failure giving nothing). -/
def clean_price (price_str : String) : Option Rat :=
  if price_str = "" then none
  else pyFloatDD (price_str.data.filter isDigitOrDot)

/-- Remove the pattern as a leading segment, yielding the remainder. -/
def stripPref : List Char → List Char → Option (List Char)
  | [], l => some l
  | _ :: _, [] => none
  | a :: as, b :: bs => if a = b then stripPref as bs else none

/-- Substring containment, as the Python `in` test on strings. -/
def containsSub (pat : List Char) : List Char → Bool
  | [] => (stripPref pat ([] : List Char)).isSome
  | c :: cs => (stripPref pat (c :: cs)).isSome || containsSub pat cs

/-- The sold-out test of src/scraper.py: the lower-cased stock text contains
the substring "sold out". -/
def soldOutMark (s : String) : Bool :=
  containsSub "sold out".data (s.data.map Char.toLower)

/-- One pass of the tag-removing substitution in _strip_html of src/scraper.py:
drop every span from a "<" to the next ">", keeping a "<" with no later ">"
literally. Fuel-driven so the kernel can evaluate it; fuel = length + 1
always suffices. -/
def stripTagsFuel : Nat → List Char → List Char
  | 0, l => l
  | _ + 1, [] => []
  | fuel + 1, c :: rest =>
    if c = '<' then
      match rest.dropWhile (fun d => ¬ (d = '>')) with
      | [] => c :: stripTagsFuel fuel rest
      | _ :: after => stripTagsFuel fuel after
    else c :: stripTagsFuel fuel rest

def stripTags (l : List Char) : List Char := stripTagsFuel (l.length + 1) l

/-- Python str.strip on a character list. -/
def pyStripL (l : List Char) : List Char :=
  ((l.dropWhile isPySpace).reverse.dropWhile isPySpace).reverse

/-- Python str.strip. -/
def pyStrip (s : String) : String := ⟨pyStripL s.data⟩

/-- The helper _strip_html of src/scraper.py: markup tags removed, then the
result is stripped of surrounding whitespace. It does not unescape
HTML entities. -/
def strip_html (s : String) : String := pyStrip ⟨stripTags s.data⟩

/-- Match of the route-splitting separator pattern at the head of the list: a
nonempty whitespace run, then the word "to" case-insensitively, then a
nonempty whitespace run; yields the remainder after the separator. This is
the split pattern used by split_route in src/scraper.py. -/
def matchToAfter (l : List Char) : Option (List Char) :=
  if (l.takeWhile isPySpace).isEmpty then none
  else
    match l.dropWhile isPySpace with
    | t :: o :: rest =>
      if t.toLower = 't' ∧ o.toLower = 'o' then
        if (rest.takeWhile isPySpace).isEmpty then none
        else some (rest.dropWhile isPySpace)
      else none
    | _ => none

/-- Leftmost occurrence of the whitespace-delimited "to" separator: the pair of
the characters before the separator and the characters after it. -/
def findToSplit : List Char → Option (List Char × List Char)
  | [] => none
  | c :: cs =>
    match matchToAfter (c :: cs) with
    | some rest => some ([], rest)
    | none =>
      match findToSplit cs with
      | some pr => some (c :: pr.1, pr.2)
      | none => none

/-- The first strategy of split_route: split at the leftmost whitespace-"to"-
whitespace separator and strip both halves. -/
def tryToSplit (txt : String) : Option (String × String) :=
  (findToSplit txt.data).map (fun pr => (⟨pyStripL pr.1⟩, ⟨pyStripL pr.2⟩))

/-- Python str.split(sep) for a nonempty separator, splitting at leftmost
non-overlapping occurrences. Fuel-driven so the kernel can evaluate it;
fuel = length + 1 always suffices. -/
def splitOnFuel (s0 : Char) (srest : List Char) : Nat → List Char → List Char → List (List Char)
  | 0, l, acc => [acc.reverse ++ l]
  | _ + 1, [], acc => [acc.reverse]
  | fuel + 1, c :: cs, acc =>
    match stripPref (s0 :: srest) (c :: cs) with
    | some rem => acc.reverse :: splitOnFuel s0 srest fuel rem []
    | none => splitOnFuel s0 srest fuel cs (c :: acc)

/-- Python str.split on a substring separator. -/
def pySplit (sep l : List Char) : List (List Char) :=
  match sep with
  | [] => [l]
  | s0 :: srest => splitOnFuel s0 srest (l.length + 1) l []

/-- The dash and arrow separators tried, in order, by split_route. -/
def routeSeps : List (List Char) := [" - ".data, " – ".data, " — ".data, "->".data, "→".data]

/-- Parts of a separator split after stripping, with blank parts removed, as in
split_route of src/scraper.py. -/
def sepParts (txt sep : List Char) : List (List Char) :=
  ((pySplit sep txt).map pyStripL).filter (fun p => ¬ p.isEmpty)

/-- First and last of a list with at least two elements. -/
def firstLastStr : List (List Char) → Option (String × String)
  | a :: b :: rest => some (⟨a⟩, ⟨(b :: rest).getLastD b⟩)
  | _ => none

/-- The separator loop of split_route: the first separator producing at least
two nonblank parts wins, with the first part as origin and the last as
destination. -/
def trySepsAux (txt : List Char) : List (List Char) → Option (String × String)
  | [] => none
  | sep :: rest =>
    match firstLastStr (sepParts txt sep) with
    | some pr => some pr
    | none => trySepsAux txt rest

/-- The second strategy of split_route: the dash and arrow separators in order. -/
def trySepSplit (txt : String) : Option (String × String) :=
  trySepsAux txt.data routeSeps

/-- split_route from src/scraper.py: empty input gives a pair of empty strings;
otherwise the stripped text is split first at a whitespace-delimited "to",
else at the first dash or arrow separator giving two nonblank parts, else
returned whole as both origin and destination. -/
def split_route (route_str : String) : String × String :=
  if route_str = "" then ("", "")
  else
    let txt := pyStrip route_str
    match tryToSplit txt with
    | some pr => pr
    | none =>
      match trySepSplit txt with
      | some pr => pr
      | none => (txt, txt)

example : split_route "Teterboro, New Jersey to Dubai, UAE"
    = ("Teterboro, New Jersey", "Dubai, UAE") := by decide
example : split_route "London, UK - Van Nuys, California"
    = ("London, UK", "Van Nuys, California") := by decide
example : split_route "Unsplittable Text" = ("Unsplittable Text", "Unsplittable Text") := by
  decide
example : split_route "A to B - C" = ("A", "B - C") := by decide
example : split_route "London, UK – Teterboro, NJ" = ("London, UK", "Teterboro, NJ") := by decide
example : split_route "A -> B -> C" = ("A", "C") := by decide
example : split_route "" = ("", "") := by decide

/-- One scraped record as assembled by the scraping functions of
src/scraper.py: a Python dict with these keys, optional ones modelled as
Option (a missing key reads as None via dict.get). -/
structure Item where
  competitor : String
  date : String
  route : String
  operator : Option String := none
  price : Option Rat := none
  seats : Option Nat := none
  status : Option String := none
  departure_time : Option String := none
  url : Option String := none
deriving DecidableEq

/-- Status and seats derived from a card's stock text in
_extract_k9_flights_from_html of src/scraper.py (lines 205-219): seats parse
only from nonempty text; a "sold out" marker forces Sold Out with seats
cleared; a positive count gives Available with that count; otherwise
Available with seats cleared. -/
def k9CardStatusSeats (seats_text : String) : String × Option Nat :=
  let seats_value : Option Nat :=
    if seats_text = "" then none else some (clean_seats seats_text)
  if soldOutMark seats_text then ("Sold Out", none)
  else
    match seats_value with
    | some n => if 0 < n then ("Available", some n) else ("Available", none)
    | none => ("Available", none)

/-- One listing as built in the AJAX strategy scrape_k9_jets_ajax of
src/scraper.py (lines 445-453): seats are always the parsed count and the
status is Available exactly when that count is positive. -/
def ajaxCardListing (raw_date route_text price_text seats_text operator_text : String) : Item :=
  { competitor := "K9 Jets"
    date := pyStrip raw_date
    route := pyStrip route_text
    operator := some operator_text
    price := clean_price price_text
    seats := some (clean_seats seats_text)
    status := some (if 0 < clean_seats seats_text then "Available" else "Sold Out") }

/-- One listing as built in scrape_bark_air of src/scraper.py (lines 335-343):
the status comes from the presence of a sold-out tag while the seats come
independently from the availability text. -/
def barkCardListing (origin dest raw_date price_text seats_text : String)
    (sold_out_tag : Bool) : Item :=
  { competitor := "Bark Air"
    date := raw_date
    route := origin ++ " -> " ++ dest
    price := clean_price price_text
    seats := some (clean_seats seats_text)
    status := some (if sold_out_tag then "Sold Out" else "Available")
    operator := some "Gulfstream G5" }

/-- The NormalizedListing status invariant of the spec: Sold Out only with
absent-or-zero seats, and positive seats only with Available. -/
def StatusInv (status : String) (seats : Option Nat) : Prop :=
  (status = "Sold Out" → seats.getD 0 = 0) ∧ (0 < seats.getD 0 → status = "Available")

instance (status : String) (seats : Option Nat) : Decidable (StatusInv status seats) := by
  unfold StatusInv
  exact inferInstance

/-- A row of the flights table as built by save_to_supabase. -/
structure FlightRow where
  competitor : String
  origin : String
  destination : String
  departure_date : String
  departure_time : Option String
  operator : Option String
deriving DecidableEq

/-- A row of the flight_snapshots table as built by save_to_supabase. -/
structure SnapRow where
  flight_id : Nat
  price : Option Rat
  seats_available : Option Nat
  status : String
deriving DecidableEq

/-- The snapshot status written by save_to_supabase (lines 739-743): the
record's status, defaulting to Available, except that a K9 record with no
numeric seats is written as Sold Out. -/
def snapshotStatus (item : Item) : String :=
  if item.competitor = "K9 Jets" ∧ item.seats = none then "Sold Out"
  else item.status.getD "Available"

/-- The batch signature used for deduplication in save_to_supabase:
competitor, route text and date text joined by underscores. -/
def sigKey (i : Item) : String := i.competitor ++ "_" ++ i.route ++ "_" ++ i.date

/-- Assignment into an association list with Python-dict semantics: an existing
key keeps its position and takes the new value, a new key goes to the end. -/
def dictUpsert : List (String × Item) → String → Item → List (String × Item)
  | [], k, v => [(k, v)]
  | (k0, v0) :: rest, k, v =>
    if k0 = k then (k, v) :: rest else (k0, v0) :: dictUpsert rest k v

/-- The deduplication of save_to_supabase (lines 689-694): a dict keyed by the
signature is filled in iteration order and its values are kept, so a later
record with the same signature overwrites an earlier one. -/
def dedupLastWins (items : List Item) : List Item :=
  (items.foldl (fun acc i => dictUpsert acc (sigKey i) i) []).map Prod.snd

/-- State of the per-record persistence loop of save_to_supabase: the Python
local flight_id (none while still unbound), the upserted flight rows, the
inserted snapshot rows, and whether the loop died with a NameError (building
a snapshot payload while flight_id was never assigned). -/
structure PState where
  flightIdVar : Option Nat
  upserts : List FlightRow
  snapshots : List SnapRow
  crashed : Bool
deriving DecidableEq

def initPState : PState := ⟨none, [], [], false⟩

/-- One iteration of the persistence loop of save_to_supabase (lines 698-751),
parameterized by the external date parser, time parser, and data store
(giving the id of the first returned row of an upsert, or none when the
upsert returns no row). An unparseable date skips the record before any
store call. The Python flight_id variable is reassigned only when the
upsert returns a row, so a rowless upsert leaves the previous record's id in
place for the snapshot insert that follows unconditionally. -/
def persistStep (dparse tparse : String → Option String) (store : FlightRow → Option Nat)
    (st : PState) (item : Item) : PState :=
  if st.crashed then st
  else
    match dparse item.date with
    | none => st
    | some clean_date =>
      let clean_time : Option String :=
        match item.departure_time with
        | none => none
        | some s => if s = "" then none else tparse s
      let od := split_route item.route
      let fp : FlightRow :=
        { competitor := item.competitor
          origin := od.1
          destination := od.2
          departure_date := clean_date
          departure_time := clean_time
          operator := item.operator }
      let fid : Option Nat :=
        match store fp with
        | some i => some i
        | none => st.flightIdVar
      match fid with
      | none =>
        { flightIdVar := none
          upserts := st.upserts ++ [fp]
          snapshots := st.snapshots
          crashed := true }
      | some i =>
        { flightIdVar := fid
          upserts := st.upserts ++ [fp]
          snapshots := st.snapshots ++
            [{ flight_id := i
               price := item.price
               seats_available := item.seats
               status := snapshotStatus item }]
          crashed := false }

/-- The persistence loop over a deduplicated batch. -/
def persistRun (dparse tparse : String → Option String) (store : FlightRow → Option Nat)
    (init : PState) (items : List Item) : PState :=
  items.foldl (persistStep dparse tparse store) init

/-- save_to_supabase from src/scraper.py: deduplicate by signature, then run
the persistence loop from the initial state. -/
def save_to_supabase (dparse tparse : String → Option String)
    (store : FlightRow → Option Nat) (data : List Item) : PState :=
  persistRun dparse tparse store initPState (dedupLastWins data)

/-- The within-pass deduplication idiom of the K9 scrape passes: a seen-set of
keys, with a record skipped when its key was already seen. -/
def dedupSeenAux {α : Type} (key : α → String) : List α → List String → List α
  | [], _ => []
  | x :: xs, seen =>
    if key x ∈ seen then dedupSeenAux key xs seen
    else x :: dedupSeenAux key xs (key x :: seen)

/-- One K9 discovery pass's deduplication, starting from an empty seen-set. -/
def passDedup {α : Type} (key : α → String) (items : List α) : List α :=
  dedupSeenAux key items []

/-- The flight key of the K9 passes: date text and route text joined by a bar
(lines 426, 521 and 677 of src/scraper.py). -/
def k9Key (i : Item) : String := i.date ++ "|" ++ i.route

/-- The hybrid K9 selection of scrape_k9_jets (lines 562-580): AJAX results
are kept only when there are strictly more than 100 of them, otherwise the
scrolling fallback's results are used. -/
def scrape_k9_jets (ajax_flights fallback_flights : List Item) : List Item :=
  if 100 < ajax_flights.length then ajax_flights else fallback_flights

/-- Whether the scrolling fallback runs inside the hybrid. -/
def k9FallbackRuns (ajax_flights : List Item) : Bool :=
  ¬ (100 < ajax_flights.length)

/-- The K9 selection in main (line 761): the HTTP result if nonempty, the
hybrid browser result otherwise (Python `or` on lists). -/
def mainK9 (http_flights hybrid_flights : List Item) : List Item :=
  if http_flights = [] then hybrid_flights else http_flights

/-- Whether the hybrid browser scraper is evaluated at all in main. -/
def mainHybridRuns (http_flights : List Item) : Bool :=
  http_flights = []

example : k9CardStatusSeats "Sold Out" = ("Sold Out", none) := by decide
example : k9CardStatusSeats "3 Seats Available" = ("Available", some 3) := by decide
example : k9CardStatusSeats "" = ("Available", none) := by decide
example : k9CardStatusSeats "waitlist" = ("Available", none) := by decide
example : (ajaxCardListing "May 5" "A to B" "0" "" "Op").status = some "Sold Out" := by decide

example : clean_seats "6 Seats Available" = 6 := by decide
example : clean_seats "Sold Out" = 0 := by decide
example : clean_price "$1,234.50" = some (mkRat 2469 2) := by decide
example : clean_price "abc" = none := by decide
example : clean_price "" = none := by decide
example : soldOutMark "SOLD OUT!" = true := by decide
example : soldOutMark "3 Seats" = false := by decide
example : strip_html " <span>6 Seats</span> " = "6 Seats" := by decide

/-- Claim C6: split_route tries its strategies in a fixed order — first the
whitespace-delimited case-insensitive "to" split, then the dash and arrow
separators with first token as origin and last as destination, and failing
both it returns the stripped text as both components — and on the three
example routes it returns the expected pairs. -/
theorem split_route_strategy_order :
  split_route "Teterboro, New Jersey to Dubai, UAE" = ("Teterboro, New Jersey", "Dubai, UAE")
  ∧ split_route "London, UK - Van Nuys, California" = ("London, UK", "Van Nuys, California")
  ∧ split_route "Unsplittable Text" = ("Unsplittable Text", "Unsplittable Text")
  ∧ (∀ (s : String) (pr : String × String), s ≠ "" → tryToSplit (pyStrip s) = some pr →
      split_route s = pr)
  ∧ (∀ (s : String) (pr : String × String), s ≠ "" → tryToSplit (pyStrip s) = none →
      trySepSplit (pyStrip s) = some pr → split_route s = pr)
  ∧ (∀ s : String, s ≠ "" → tryToSplit (pyStrip s) = none → trySepSplit (pyStrip s) = none →
      split_route s = (pyStrip s, pyStrip s)) := by
  refine ⟨by decide, by decide, by decide, ?_, ?_, ?_⟩
  · intro s pr hs h
    simp [split_route, hs, h]
  · intro s pr hs h1 h2
    simp [split_route, hs, h1, h2]
  · intro s hs h1 h2
    simp [split_route, hs, h1, h2]

theorem split_route_strategy_order_witness :
  split_route "Quito -> Lima" = ("Quito", "Lima") :=
  split_route_strategy_order.2.2.2.2.1 "Quito -> Lima" ("Quito", "Lima")
    (by decide) (by decide) (by decide)

/-- Integer groups joined by commas, as a thousands-separated rendering. -/
def commaJoin : List (List Char) → List Char
  | [] => []
  | [g] => g
  | g :: g2 :: gs => g ++ ',' :: commaJoin (g2 :: gs)

theorem digit_ne_dot {a : Char} (h : a.isDigit = true) : ¬ (a = '.') := by
  intro e
  rw [e] at h
  exact absurd h (by decide)

theorem filterNilOf (p : Char → Bool) (l : List Char) (h : ∀ c ∈ l, p c = false) :
    l.filter p = [] := by
  induction l with
  | nil => rfl
  | cons a as ih =>
    simp only [List.filter_cons, h a (List.mem_cons_self a as)]
    simpa using ih (fun c hc => h c (List.mem_cons_of_mem _ hc))

theorem filterSelfOf (p : Char → Bool) (l : List Char) (h : ∀ c ∈ l, p c = true) :
    l.filter p = l := by
  induction l with
  | nil => rfl
  | cons a as ih =>
    simp only [List.filter_cons, h a (List.mem_cons_self a as), if_true]
    rw [ih (fun c hc => h c (List.mem_cons_of_mem _ hc))]

theorem commaJoin_filter (groups : List (List Char))
    (h : ∀ g ∈ groups, ∀ c ∈ g, c.isDigit = true) :
    (commaJoin groups).filter isDigitOrDot = groups.flatten := by
  induction groups with
  | nil => rfl
  | cons g gs ih =>
    cases gs with
    | nil =>
      have hg : g.filter isDigitOrDot = g :=
        filterSelfOf _ g (fun c hc => by
          simp [isDigitOrDot, h g (List.mem_cons_self g []) c hc])
      show g.filter isDigitOrDot = [g].flatten
      simp [hg]
    | cons g2 gs2 =>
      have ih2 := ih (fun g hg c hc => h g (List.mem_cons_of_mem _ hg) c hc)
      have hg : g.filter isDigitOrDot = g :=
        filterSelfOf _ g (fun c hc => by
          simp [isDigitOrDot, h g (List.mem_cons_self g (g2 :: gs2)) c hc])
      show (g ++ ',' :: commaJoin (g2 :: gs2)).filter isDigitOrDot = (g :: g2 :: gs2).flatten
      simp [List.filter_append, hg, List.filter_cons, ih2,
        show isDigitOrDot ',' = false from rfl]

theorem takeWhile_digits_dot (D F : List Char) (hD : ∀ c ∈ D, c.isDigit = true) :
    (D ++ '.' :: F).takeWhile (fun c => ¬ (c = '.')) = D := by
  induction D with
  | nil => simp [List.takeWhile_cons]
  | cons a as ih =>
    have ha := digit_ne_dot (hD a (List.mem_cons_self a as))
    have ih2 := ih (fun c hc => hD c (List.mem_cons_of_mem _ hc))
    simp only [decide_not] at ih2
    simp [List.takeWhile_cons, ha, ih2]

theorem dropWhile_digits_dot (D F : List Char) (hD : ∀ c ∈ D, c.isDigit = true) :
    (D ++ '.' :: F).dropWhile (fun c => ¬ (c = '.')) = '.' :: F := by
  induction D with
  | nil => simp [List.dropWhile_cons]
  | cons a as ih =>
    have ha := digit_ne_dot (hD a (List.mem_cons_self a as))
    have ih2 := ih (fun c hc => hD c (List.mem_cons_of_mem _ hc))
    simp only [decide_not] at ih2
    simp [List.dropWhile_cons, ha, ih2]

theorem count_dot_zero (l : List Char) (h : ∀ c ∈ l, c.isDigit = true) :
    l.count '.' = 0 := by
  rw [List.count_eq_zero]
  intro hm
  exact digit_ne_dot (h _ hm) rfl

theorem pyFloatDD_eval (D F : List Char) (hD : ∀ c ∈ D, c.isDigit = true)
    (hF : ∀ c ∈ F, c.isDigit = true) (hne : D ≠ []) :
    pyFloatDD (D ++ '.' :: F)
      = some (mkRat (natOfDigits D * 10 ^ F.length + natOfDigits F) (10 ^ F.length)) := by
  have hcount : (D ++ '.' :: F).count '.' ≤ 1 := by
    rw [List.count_append, count_dot_zero _ hD]
    simp [List.count_cons, count_dot_zero F hF]
  have hany : (D ++ '.' :: F).any Char.isDigit = true := by
    rcases D with _ | ⟨c, cs⟩
    · exact absurd rfl hne
    · exact List.any_eq_true.2 ⟨c, by simp, hD c (List.mem_cons_self c cs)⟩
  rw [pyFloatDD, if_pos ⟨hcount, hany⟩]
  simp only [takeWhile_digits_dot D F hD, dropWhile_digits_dot D F hD, List.drop_succ_cons,
    List.drop_zero]

/-- Claim C7: clean_price strips every character that is not a digit or a dot
and parses the remainder as a decimal number — any amount rendered as a
digit-free prefix, comma-grouped integer digits, a dot and fractional digits
parses to exactly its decimal value — while the empty string or a string
with no digit parses to nothing. -/
theorem clean_price_round_trip :
  (∀ (pre : List Char) (groups : List (List Char)) (frac : List Char),
      (∀ c ∈ pre, isDigitOrDot c = false) →
      (∀ g ∈ groups, ∀ c ∈ g, c.isDigit = true) →
      groups ≠ [] → (∀ g ∈ groups, g ≠ []) →
      (∀ c ∈ frac, c.isDigit = true) →
      clean_price ⟨pre ++ commaJoin groups ++ '.' :: frac⟩
        = some (mkRat (natOfDigits groups.flatten * 10 ^ frac.length + natOfDigits frac)
            (10 ^ frac.length)))
  ∧ clean_price "" = none
  ∧ (∀ s : String, (∀ c ∈ s.data, c.isDigit = false) → clean_price s = none) := by
  refine ⟨?_, by decide, ?_⟩
  · intro pre groups frac hpre hgd hgne hgene hfd
    have hmkne : (⟨pre ++ commaJoin groups ++ '.' :: frac⟩ : String) ≠ "" := by
      intro hEq
      have hd := congrArg String.data hEq
      simp at hd
    rw [clean_price, if_neg hmkne]
    have hdata : (⟨pre ++ commaJoin groups ++ '.' :: frac⟩ : String).data
        = pre ++ commaJoin groups ++ '.' :: frac := rfl
    rw [hdata]
    have hjd : ∀ c ∈ groups.flatten, c.isDigit = true := by
      intro c hc
      rcases List.mem_flatten.1 hc with ⟨g, hg, hcg⟩
      exact hgd g hg c hcg
    have hdotfrac : ('.' :: frac).filter isDigitOrDot = '.' :: frac :=
      filterSelfOf _ _ (by
        intro c hc
        rcases List.mem_cons.1 hc with rfl | hc
        · rfl
        · simp [isDigitOrDot, hfd c hc])
    have hfilter : (pre ++ commaJoin groups ++ '.' :: frac).filter isDigitOrDot
        = groups.flatten ++ '.' :: frac := by
      rw [List.filter_append, List.filter_append, filterNilOf _ pre hpre,
        commaJoin_filter groups hgd, hdotfrac]
      simp
    rw [hfilter]
    have hflatne : groups.flatten ≠ [] := by
      rcases groups with _ | ⟨g, gs⟩
      · exact absurd rfl hgne
      · rcases g with _ | ⟨c, cs⟩
        · exact absurd rfl (hgene [] (List.mem_cons_self _ _))
        · simp
    exact pyFloatDD_eval groups.flatten frac hjd hfd hflatne
  · intro s h
    by_cases hs : s = ""
    · rw [hs]
      decide
    · rw [clean_price, if_neg hs, pyFloatDD, if_neg]
      rintro ⟨-, hany⟩
      rcases List.any_eq_true.1 hany with ⟨c, hc, hcd⟩
      exact absurd hcd (by simp [h c (List.mem_of_mem_filter hc)])

theorem clean_price_round_trip_witness :
  clean_price ⟨"$".data ++ commaJoin [['1'], ['2', '3', '4']] ++ '.' :: ['5', '0']⟩
    = some (mkRat
        (natOfDigits [['1'], ['2', '3', '4']].flatten * 10 ^ (['5', '0'] : List Char).length
          + natOfDigits ['5', '0']) (10 ^ (['5', '0'] : List Char).length)) :=
  clean_price_round_trip.1 "$".data [['1'], ['2', '3', '4']] ['5', '0']
    (by decide) (by decide) (by decide) (by decide) (by decide)

/-- Claim C1 fails as the code stands: in the AJAX extraction path a card whose
stock text is empty — no sold-out marker and no parseable count — yields a
listing with status Sold Out and seats 0, where the claim requires Available
with seats absent. -/
theorem ajax_status_counterexample :
  soldOutMark "" = false
  ∧ clean_seats "" = 0
  ∧ (ajaxCardListing "May 5, 2025" "London to Paris" "$1000" "" "Op").status = some "Sold Out"
  ∧ (ajaxCardListing "May 5, 2025" "London to Paris" "$1000" "" "Op").seats = some 0 := by
  decide

/-- Claim C1 amended: the claimed status derivation holds on the HTML card
extraction path — a sold-out marker gives Sold Out with seats absent, a
positive parsed count gives Available with that count, anything else gives
Available with seats absent — while the AJAX path instead marks a listing
Available exactly when a positive count parses and Sold Out otherwise, with
seats always recorded as the parsed count. -/
theorem k9_status_derivation :
  (∀ s : String, soldOutMark s = true → k9CardStatusSeats s = ("Sold Out", none))
  ∧ (∀ s : String, soldOutMark s = false → 0 < clean_seats s →
      k9CardStatusSeats s = ("Available", some (clean_seats s)))
  ∧ (∀ s : String, soldOutMark s = false → clean_seats s = 0 →
      k9CardStatusSeats s = ("Available", none))
  ∧ (∀ d r p s op : String,
      (ajaxCardListing d r p s op).status
          = some (if 0 < clean_seats s then "Available" else "Sold Out")
        ∧ (ajaxCardListing d r p s op).seats = some (clean_seats s)) := by
  refine ⟨?_, ?_, ?_, ?_⟩
  · intro s h
    simp [k9CardStatusSeats, h]
  · intro s h hpos
    have hne : s ≠ "" := by
      intro e
      rw [e] at hpos
      exact absurd hpos (by decide)
    simp [k9CardStatusSeats, h, hne, hpos]
  · intro s h h0
    by_cases hne : s = ""
    · subst hne
      simp [k9CardStatusSeats, h]
    · simp [k9CardStatusSeats, h, hne, h0]
  · intro d r p s op
    exact ⟨rfl, rfl⟩

theorem k9_status_derivation_witness :
  k9CardStatusSeats "SOLD OUT" = ("Sold Out", none) :=
  k9_status_derivation.1 "SOLD OUT" (by decide)

/-- Claim C2 fails on the code: _strip_html removes markup but never unescapes
HTML entities, so a detail-page price fragment whose entity contains digits
parses to a corrupted value — unescaping the entity first (second conjunct)
gives the true price, and the two differ. -/
theorem entity_unescape_code_eval :
  clean_price (strip_html "<bdi>1&#160;234.50</bdi>") = some (mkRat 116023450 100)
  ∧ clean_price (strip_html "1\xa0234.50") = some (mkRat 123450 100)
  ∧ mkRat 116023450 100 ≠ mkRat 123450 100 := by
  decide

/-- Claim C8 fails as the code stands: the Bark Air path derives the status
from the sold-out tag and the seats independently from the availability
text, so a sold-out-tagged card whose text still shows three seats yields a
listing with status Sold Out and positive seats, breaking the invariant. -/
theorem bark_invariant_counterexample :
  (barkCardListing "London" "Paris" "2025-06-01" "$5000" "3 Seats Available" true).status
      = some "Sold Out"
  ∧ (barkCardListing "London" "Paris" "2025-06-01" "$5000" "3 Seats Available" true).seats
      = some 3
  ∧ ¬ StatusInv "Sold Out" (some 3) := by
  decide

/-- Claim C8 amended: the status invariant holds for the HTML card extraction
path and the AJAX path unconditionally, for the Bark Air path only when a
sold-out-tagged card carries no positive seat count in its availability
text, and it is preserved by the snapshot written by the persister. -/
theorem status_invariant_amended :
  (∀ s : String, StatusInv (k9CardStatusSeats s).1 (k9CardStatusSeats s).2)
  ∧ (∀ d r p s op : String,
      StatusInv ((ajaxCardListing d r p s op).status.getD "Available")
        (ajaxCardListing d r p s op).seats)
  ∧ (∀ o d rd p st : String, ∀ tag : Bool, (tag = true → clean_seats st = 0) →
      StatusInv ((barkCardListing o d rd p st tag).status.getD "Available")
        (barkCardListing o d rd p st tag).seats)
  ∧ (∀ item : Item, StatusInv (item.status.getD "Available") item.seats →
      StatusInv (snapshotStatus item) item.seats) := by
  refine ⟨?_, ?_, ?_, ?_⟩
  · intro s
    by_cases hsold : soldOutMark s
    · simp [k9CardStatusSeats, hsold]
      exact ⟨fun _ => rfl, fun h => absurd h (by decide)⟩
    · by_cases hne : s = ""
      · simp [k9CardStatusSeats, hsold, hne]
        exact ⟨fun h => absurd h (by decide), fun h => absurd h (by decide)⟩
      · by_cases hpos : 0 < clean_seats s
        · simp [k9CardStatusSeats, hsold, hne, hpos]
          exact ⟨fun h => absurd h (by decide), fun _ => rfl⟩
        · simp [k9CardStatusSeats, hsold, hne, hpos]
          exact ⟨fun h => absurd h (by decide), fun h => absurd h (by decide)⟩
  · intro d r p s op
    by_cases hpos : 0 < clean_seats s
    · simp only [ajaxCardListing, if_pos hpos, Option.getD_some]
      exact ⟨fun h => absurd h (by decide), fun _ => rfl⟩
    · have h0 : clean_seats s = 0 := Nat.eq_zero_of_not_pos hpos
      simp only [ajaxCardListing, if_neg hpos, Option.getD_some]
      refine ⟨fun _ => by simp [h0], fun hp => ?_⟩
      exact absurd (by simpa using hp) hpos
  · intro o d rd p st tag htag
    cases tag with
    | true =>
      refine ⟨fun _ => ?_, fun hp => ?_⟩
      · show (some (clean_seats st)).getD 0 = 0
        simp [htag rfl]
      · exact absurd (show (0 : Nat) < clean_seats st by simpa [barkCardListing] using hp)
          (by simp [htag rfl])
    | false =>
      exact ⟨fun h => absurd (show ("Available" : String) = "Sold Out" from h) (by decide),
        fun _ => rfl⟩
  · intro item h
    by_cases hc : item.competitor = "K9 Jets" ∧ item.seats = none
    · rw [snapshotStatus, if_pos hc]
      exact ⟨fun _ => by rw [hc.2]; rfl, fun hp => absurd hp (by rw [hc.2]; decide)⟩
    · rw [snapshotStatus, if_neg hc]
      exact h

theorem status_invariant_amended_witness :
  StatusInv ((barkCardListing "London" "Paris" "2025-06-01" "$5000" "Sold out" true).status.getD
      "Available")
    (barkCardListing "London" "Paris" "2025-06-01" "$5000" "Sold out" true).seats :=
  status_invariant_amended.2.2.1 "London" "Paris" "2025-06-01" "$5000" "Sold out" true
    (fun _ => by decide)

/-- A concrete scraped record used for counterexamples and witnesses. -/
def itemStub : Item :=
  { competitor := "K9 Jets", date := "May 5, 2025", route := "London to Paris" }

/-- Claim C9 fails as stated at an AJAX result count of exactly 100: the count
is not below the threshold, yet the scrolling fallback still runs and the
AJAX results are not returned. -/
theorem k9_threshold_counterexample :
  k9FallbackRuns (List.replicate 100 itemStub) = true
  ∧ ¬ ((List.replicate 100 itemStub).length < 100)
  ∧ scrape_k9_jets (List.replicate 100 itemStub) [] = [] := by
  refine ⟨by decide, by simp, by simp [scrape_k9_jets]⟩

/-- Claim C9 amended: main prefers the HTTP strategy and evaluates the hybrid
browser scraper exactly when the HTTP result is empty, while inside the
hybrid the scrolling fallback runs iff the AJAX count is at most the
threshold 100 — AJAX results are returned only when the count strictly
exceeds 100. -/
theorem k9_strategy_precedence_amended :
  (∀ http hyb : List Item, http ≠ [] → mainK9 http hyb = http)
  ∧ (∀ http : List Item, mainHybridRuns http = true ↔ http = [])
  ∧ (∀ ajax : List Item, k9FallbackRuns ajax = true ↔ ajax.length ≤ 100)
  ∧ (∀ ajax fb : List Item, 100 < ajax.length → scrape_k9_jets ajax fb = ajax)
  ∧ (∀ ajax fb : List Item, ajax.length ≤ 100 → scrape_k9_jets ajax fb = fb) := by
  refine ⟨?_, ?_, ?_, ?_, ?_⟩
  · intro http hyb h
    simp [mainK9, h]
  · intro http
    simp [mainHybridRuns]
  · intro ajax
    simp [k9FallbackRuns, Nat.not_lt]
  · intro ajax fb h
    simp [scrape_k9_jets, h]
  · intro ajax fb h
    simp [scrape_k9_jets, Nat.not_lt.2 h]

theorem k9_strategy_precedence_amended_witness :
  scrape_k9_jets [] [itemStub] = [itemStub] :=
  k9_strategy_precedence_amended.2.2.2.2 [] [itemStub] (by decide)

theorem dedupSeenAux_key_not_seen {α : Type} (key : α → String) (items : List α) :
    ∀ seen : List String, ∀ x ∈ dedupSeenAux key items seen, key x ∉ seen := by
  induction items with
  | nil =>
    intro seen x hx
    simp [dedupSeenAux] at hx
  | cons a as ih =>
    intro seen x hx
    by_cases h : key a ∈ seen
    · rw [dedupSeenAux, if_pos h] at hx
      exact ih seen x hx
    · rw [dedupSeenAux, if_neg h] at hx
      rcases List.mem_cons.1 hx with rfl | hx
      · exact h
      · intro hmem
        exact ih (key a :: seen) x hx (List.mem_cons_of_mem _ hmem)

theorem dedupSeenAux_pairwise {α : Type} (key : α → String) (items : List α) :
    ∀ seen : List String,
      (dedupSeenAux key items seen).Pairwise (fun a b => key a ≠ key b) := by
  induction items with
  | nil =>
    intro seen
    simp [dedupSeenAux]
  | cons a as ih =>
    intro seen
    by_cases h : key a ∈ seen
    · rw [dedupSeenAux, if_pos h]
      exact ih seen
    · rw [dedupSeenAux, if_neg h]
      refine List.Pairwise.cons ?_ (ih (key a :: seen))
      intro b hb
      have := dedupSeenAux_key_not_seen key as (key a :: seen) b hb
      intro e
      exact this (e ▸ List.mem_cons_self _ _)

theorem dedupSeenAux_find? {α : Type} (key : α → String) (s : String) (items : List α) :
    ∀ seen : List String, s ∉ seen →
      (dedupSeenAux key items seen).find? (fun i => key i = s)
        = items.find? (fun i => key i = s) := by
  induction items with
  | nil =>
    intro seen _
    simp [dedupSeenAux]
  | cons a as ih =>
    intro seen hs
    by_cases h : key a ∈ seen
    · have hne : ¬ (key a = s) := fun e => hs (e ▸ h)
      rw [dedupSeenAux, if_pos h, ih seen hs, List.find?_cons_of_neg _ (by simpa using hne)]
    · rw [dedupSeenAux, if_neg h]
      by_cases he : key a = s
      · rw [List.find?_cons_of_pos _ (by simpa using he),
          List.find?_cons_of_pos _ (by simpa using he)]
      · rw [List.find?_cons_of_neg _ (by simpa using he),
          List.find?_cons_of_neg _ (by simpa using he)]
        refine ih (key a :: seen) ?_
        intro hmem
        rcases List.mem_cons.1 hmem with rfl | hmem
        · exact he rfl
        · exact hs hmem

theorem dedupSeenAux_sublist {α : Type} (key : α → String) (items : List α) :
    ∀ seen : List String, (dedupSeenAux key items seen).Sublist items := by
  induction items with
  | nil =>
    intro seen
    simp [dedupSeenAux]
  | cons a as ih =>
    intro seen
    by_cases h : key a ∈ seen
    · rw [dedupSeenAux, if_pos h]
      exact (ih seen).cons a
    · rw [dedupSeenAux, if_neg h]
      exact (ih (key a :: seen)).cons₂ a

/-- Two records sharing a date-route key and a signature but carrying
different prices. -/
def itemDupA : Item :=
  { competitor := "K9 Jets", date := "May 5", route := "A to B", price := some (mkRat 100 1),
    seats := some 2, status := some "Available" }

def itemDupB : Item :=
  { competitor := "K9 Jets", date := "May 5", route := "A to B", price := some (mkRat 200 1),
    seats := some 2, status := some "Available" }

/-- Claim C10: within one K9 discovery pass the seen-set keeps at most one
listing per date-route key — the kept one being the first in extraction
order, the output being a subsequence of the input — which is the opposite
orientation of the batch deduplication, where the later record wins. -/
theorem pass_dedup_first_wins :
  (∀ items : List Item, (passDedup k9Key items).Pairwise (fun a b => k9Key a ≠ k9Key b))
  ∧ (∀ (items : List Item) (s : String),
      (passDedup k9Key items).find? (fun i => k9Key i = s)
        = items.find? (fun i => k9Key i = s))
  ∧ (∀ items : List Item, (passDedup k9Key items).Sublist items)
  ∧ passDedup k9Key [itemDupA, itemDupB] = [itemDupA]
  ∧ dedupLastWins [itemDupA, itemDupB] = [itemDupB] := by
  refine ⟨fun items => dedupSeenAux_pairwise k9Key items [],
    fun items s => dedupSeenAux_find? k9Key s items [] (by simp),
    fun items => dedupSeenAux_sublist k9Key items [], by decide, by decide⟩

/-- Left-biased choice on options. -/
def oor {α : Type} : Option α → Option α → Option α
  | some a, _ => some a
  | none, b => b

theorem oor_none_right {α : Type} (a : Option α) : oor a none = a := by
  cases a <;> rfl

theorem oor_assoc {α : Type} (a b c : Option α) : oor (oor a b) c = oor a (oor b c) := by
  cases a <;> rfl

theorem getLastQ_cons {α : Type} (a : α) (l : List α) :
    (a :: l).getLast? = oor l.getLast? (some a) := by
  induction l generalizing a with
  | nil => rfl
  | cons b bs ih =>
    rw [List.getLast?_cons_cons, ih b, oor_assoc]
    rfl

/-- Lookup in the association list modelling the dedup dict. -/
def lookupA : List (String × Item) → String → Option Item
  | [], _ => none
  | p :: rest, s => if p.1 = s then some p.2 else lookupA rest s

theorem lookupA_dictUpsert (acc : List (String × Item)) (k : String) (v : Item) (s : String) :
    lookupA (dictUpsert acc k v) s = if s = k then some v else lookupA acc s := by
  induction acc with
  | nil =>
    by_cases h : s = k
    · rw [h]
      simp [dictUpsert, lookupA]
    · have h2 : ¬ (k = s) := fun e => h e.symm
      simp [dictUpsert, lookupA, h, h2]
  | cons p rest ih =>
    by_cases hp : p.1 = k
    · rw [dictUpsert, if_pos hp]
      by_cases h : s = k
      · rw [h]
        simp [lookupA]
      · have h2 : ¬ (k = s) := fun e => h e.symm
        have h3 : ¬ (p.1 = s) := fun e => h2 (hp ▸ e)
        simp [lookupA, h, h2, h3]
    · rw [dictUpsert, if_neg hp]
      by_cases hps : p.1 = s
      · have h : ¬ (s = k) := fun e => hp (e ▸ hps)
        simp [lookupA, hps, h]
      · simp [lookupA, hps, ih]

theorem lookupA_fold (items : List Item) :
    ∀ (acc : List (String × Item)) (s : String),
      lookupA (items.foldl (fun a i => dictUpsert a (sigKey i) i) acc) s
        = oor ((items.filter (fun i => sigKey i = s)).getLast?) (lookupA acc s) := by
  induction items with
  | nil =>
    intro acc s
    rfl
  | cons i rest ih =>
    intro acc s
    rw [List.foldl_cons, ih]
    by_cases h : sigKey i = s
    · rw [List.filter_cons_of_pos (by simpa using h), getLastQ_cons, oor_assoc,
        lookupA_dictUpsert]
      rw [if_pos h.symm]
      rfl
    · rw [List.filter_cons_of_neg (by simpa using h), lookupA_dictUpsert,
        if_neg (fun e => h e.symm)]

theorem keys_dictUpsert (acc : List (String × Item)) (k : String) (v : Item) :
    (dictUpsert acc k v).map Prod.fst
      = if k ∈ acc.map Prod.fst then acc.map Prod.fst else acc.map Prod.fst ++ [k] := by
  induction acc with
  | nil => simp [dictUpsert]
  | cons p rest ih =>
    by_cases hp : p.1 = k
    · rw [dictUpsert, if_pos hp]
      simp [hp]
    · have hk : ¬ (k = p.1) := fun e => hp e.symm
      rw [dictUpsert, if_neg hp]
      by_cases hm : k ∈ rest.map Prod.fst
      · simp [List.mem_cons, hk, hm, ih]
      · simp [List.mem_cons, hk, hm, ih]

theorem keysNodup_dictUpsert (acc : List (String × Item)) (k : String) (v : Item)
    (h : (acc.map Prod.fst).Nodup) : ((dictUpsert acc k v).map Prod.fst).Nodup := by
  rw [keys_dictUpsert]
  by_cases hm : k ∈ acc.map Prod.fst
  · rw [if_pos hm]
    exact h
  · rw [if_neg hm]
    simp [List.nodup_append, h, hm]

theorem entries_dictUpsert (acc : List (String × Item)) (v : Item)
    (h : ∀ p ∈ acc, p.1 = sigKey p.2) :
    ∀ p ∈ dictUpsert acc (sigKey v) v, p.1 = sigKey p.2 := by
  induction acc with
  | nil =>
    intro p hp
    simp [dictUpsert] at hp
    rw [hp]
  | cons q rest ih =>
    intro p hp
    by_cases hq : q.1 = sigKey v
    · rw [dictUpsert, if_pos hq] at hp
      rcases List.mem_cons.1 hp with rfl | hp
      · rfl
      · exact h p (List.mem_cons_of_mem _ hp)
    · rw [dictUpsert, if_neg hq] at hp
      rcases List.mem_cons.1 hp with rfl | hp
      · exact h q (List.mem_cons_self _ _)
      · exact ih (fun r hr => h r (List.mem_cons_of_mem _ hr)) p hp

theorem fold_entries (items : List Item) :
    ∀ acc : List (String × Item), (∀ p ∈ acc, p.1 = sigKey p.2) → (acc.map Prod.fst).Nodup →
      (∀ p ∈ items.foldl (fun a i => dictUpsert a (sigKey i) i) acc, p.1 = sigKey p.2)
        ∧ ((items.foldl (fun a i => dictUpsert a (sigKey i) i) acc).map Prod.fst).Nodup := by
  induction items with
  | nil =>
    intro acc h1 h2
    exact ⟨h1, h2⟩
  | cons i rest ih =>
    intro acc h1 h2
    rw [List.foldl_cons]
    exact ih (dictUpsert acc (sigKey i) i) (entries_dictUpsert acc i h1)
      (keysNodup_dictUpsert acc (sigKey i) i h2)

theorem valuesFilterNil (s : String) :
    ∀ l : List (String × Item), (∀ p ∈ l, p.1 = sigKey p.2) → s ∉ l.map Prod.fst →
      (l.map Prod.snd).filter (fun i => sigKey i = s) = [] := by
  intro l
  induction l with
  | nil =>
    intro _ _
    rfl
  | cons p rest ih =>
    intro hinv hnot
    have hp : ¬ (sigKey p.2 = s) := by
      intro e
      apply hnot
      rw [List.map_cons]
      exact List.mem_cons.2 (Or.inl ((hinv p (List.mem_cons_self _ _)).trans e).symm)
    rw [List.map_cons, List.filter_cons_of_neg (by simpa using hp)]
    exact ih (fun r hr => hinv r (List.mem_cons_of_mem _ hr))
      (fun hm => hnot (List.mem_cons_of_mem _ hm))

theorem valuesFilter (s : String) :
    ∀ l : List (String × Item), (∀ p ∈ l, p.1 = sigKey p.2) → ((l.map Prod.fst).Nodup) →
      (l.map Prod.snd).filter (fun i => sigKey i = s) = (lookupA l s).toList := by
  intro l
  induction l with
  | nil =>
    intro _ _
    rfl
  | cons p rest ih =>
    intro hinv hnodup
    have hkey : p.1 = sigKey p.2 := hinv p (List.mem_cons_self _ _)
    have hrestinv : ∀ r ∈ rest, r.1 = sigKey r.2 :=
      fun r hr => hinv r (List.mem_cons_of_mem _ hr)
    have hrestnodup : (rest.map Prod.fst).Nodup := (List.nodup_cons.1 hnodup).2
    have hnotin : p.1 ∉ rest.map Prod.fst := (List.nodup_cons.1 hnodup).1
    by_cases h : sigKey p.2 = s
    · have hp1 : p.1 = s := hkey.trans h
      rw [List.map_cons, List.filter_cons_of_pos (by simpa using h),
        valuesFilterNil s rest hrestinv (by rw [← hp1]; exact hnotin)]
      simp only [lookupA, if_pos hp1, Option.toList_some]
    · have hp1 : ¬ (p.1 = s) := by rw [hkey]; exact h
      rw [List.map_cons, List.filter_cons_of_neg (by simpa using h)]
      simp only [lookupA, if_neg hp1]
      exact ih hrestinv hrestnodup

/-- Claim C4: the deduplicated batch has exactly one record per signature
occurring in the input — the filter of the deduplicated batch at any
signature is exactly the last input record carrying it — and no two
deduplicated records share a signature. -/
theorem dedup_last_wins :
  (∀ (items : List Item) (s : String),
      (dedupLastWins items).filter (fun i => sigKey i = s)
        = ((items.filter (fun i => sigKey i = s)).getLast?).toList)
  ∧ (∀ items : List Item, (dedupLastWins items).Pairwise (fun a b => sigKey a ≠ sigKey b)) := by
  constructor
  · intro items s
    have hfe := fold_entries items [] (by simp) (by simp)
    rw [dedupLastWins, valuesFilter s _ hfe.1 hfe.2, lookupA_fold items [] s]
    rw [show lookupA [] s = none from rfl, oor_none_right]
  · intro items
    have hfe := fold_entries items [] (by simp) (by simp)
    have hmap : (dedupLastWins items).map sigKey
        = (items.foldl (fun a i => dictUpsert a (sigKey i) i) []).map Prod.fst := by
      rw [dedupLastWins, List.map_map]
      exact List.map_congr_left (fun p hp => (hfe.1 p hp).symm)
    have hnodup : ((dedupLastWins items).map sigKey).Nodup := by
      rw [hmap]
      exact hfe.2
    exact (List.pairwise_map.1 hnodup)

theorem persistStep_skip (dparse tparse : String → Option String)
    (store : FlightRow → Option Nat) (st : PState) (bad : Item)
    (h : dparse bad.date = none) :
    persistStep dparse tparse store st bad = st := by
  by_cases hc : st.crashed <;> simp [persistStep, h, hc]

theorem persistStep_upserts (dparse tparse : String → Option String)
    (store : FlightRow → Option Nat) (st : PState) (item : Item) (fp : FlightRow)
    (h : fp ∈ (persistStep dparse tparse store st item).upserts) :
    fp ∈ st.upserts ∨ dparse item.date = some fp.departure_date := by
  by_cases hc : st.crashed
  · rw [show persistStep dparse tparse store st item = st from by simp [persistStep, hc]] at h
    exact Or.inl h
  · cases hd : dparse item.date with
    | none =>
      rw [persistStep_skip dparse tparse store st item hd] at h
      exact Or.inl h
    | some cd =>
      simp only [persistStep, if_neg hc, hd] at h
      split at h <;>
        · simp only [List.mem_append, List.mem_singleton] at h
          rcases h with hin | rfl
          · exact Or.inl hin
          · exact Or.inr rfl

/-- Claim C3: a record whose date does not parse is skipped whole — running the
persistence loop with it inserted anywhere equals running the loop without
it, so no flight row and no snapshot row comes from it and the rest of the
batch is processed unchanged — and every flight row ever upserted carries a
departure date produced by the date parser, never a garbage one. -/
theorem persist_skips_bad_dates :
  (∀ (dparse tparse : String → Option String) (store : FlightRow → Option Nat)
      (init : PState) (pre post : List Item) (bad : Item),
      dparse bad.date = none →
      persistRun dparse tparse store init (pre ++ bad :: post)
        = persistRun dparse tparse store init (pre ++ post))
  ∧ (∀ (dparse tparse : String → Option String) (store : FlightRow → Option Nat)
      (items : List Item) (fp : FlightRow),
      fp ∈ (save_to_supabase dparse tparse store items).upserts →
      ∃ raw : String, dparse raw = some fp.departure_date) := by
  constructor
  · intro dparse tparse store init pre post bad h
    rw [persistRun, persistRun, List.foldl_append, List.foldl_append, List.foldl_cons,
      persistStep_skip dparse tparse store _ bad h]
  · intro dparse tparse store items fp hmem
    have key : ∀ (l : List Item) (st : PState),
        fp ∈ (List.foldl (persistStep dparse tparse store) st l).upserts →
        fp ∈ st.upserts ∨ ∃ raw, dparse raw = some fp.departure_date := by
      intro l
      induction l with
      | nil =>
        intro st h
        exact Or.inl h
      | cons i rest ih =>
        intro st h
        rw [List.foldl_cons] at h
        rcases ih (persistStep dparse tparse store st i) h with hin | hex
        · rcases persistStep_upserts dparse tparse store st i fp hin with hin2 | hdate
          · exact Or.inl hin2
          · exact Or.inr ⟨i.date, hdate⟩
        · exact Or.inr hex
    rcases key (dedupLastWins items) initPState hmem with hin | hex
    · exact absurd hin (by simp [initPState])
    · exact hex

/-- External parser and store stand-ins for concrete runs: an identity date
parser, a date parser failing exactly on "garbage", a time parser that never
parses, and a store returning a row id 7 only for flights out of origin
"A". -/
def dpIdent : String → Option String := fun s => some s

def dpGarbage : String → Option String := fun s => if s = "garbage" then none else some s

def tpNone : String → Option String := fun _ => none

def storeFirstOnly : FlightRow → Option Nat := fun fp => if fp.origin = "A" then some 7 else none

def itemFirst : Item :=
  { competitor := "Bark Air", date := "2025-06-01", route := "A", operator := some "Op",
    price := some (mkRat 10 1), seats := some 1, status := some "Available" }

def itemSecond : Item :=
  { competitor := "Bark Air", date := "2025-06-01", route := "B", operator := some "Op",
    price := some (mkRat 20 1), seats := some 1, status := some "Available" }

def itemBadDate : Item := { competitor := "K9 Jets", date := "garbage", route := "A to B" }

/-- The flight row save_to_supabase builds for itemSecond. -/
def fpSecond : FlightRow :=
  { competitor := "Bark Air", origin := "B", destination := "B",
    departure_date := "2025-06-01", departure_time := none, operator := some "Op" }

theorem persist_skips_bad_dates_witness :
  persistRun dpGarbage tpNone storeFirstOnly initPState
      ([itemFirst] ++ itemBadDate :: [itemSecond])
    = persistRun dpGarbage tpNone storeFirstOnly initPState ([itemFirst] ++ [itemSecond]) :=
  persist_skips_bad_dates.1 dpGarbage tpNone storeFirstOnly initPState [itemFirst] [itemSecond]
    itemBadDate (by decide)

/-- Claim C5 fails on the code: when a record's upsert returns no row, the
snapshot insert still runs with the flight_id left over from the previous
record — here the second record's upsert returns no row (second conjunct),
yet its snapshot is inserted carrying the first record's id 7. -/
theorem snapshot_stale_id_code_eval :
  (save_to_supabase dpIdent tpNone storeFirstOnly [itemFirst, itemSecond]).snapshots
      = [{ flight_id := 7, price := some (mkRat 10 1), seats_available := some 1,
           status := "Available" },
         { flight_id := 7, price := some (mkRat 20 1), seats_available := some 1,
           status := "Available" }]
  ∧ (save_to_supabase dpIdent tpNone storeFirstOnly [itemFirst, itemSecond]).upserts.getLast?
      = some fpSecond
  ∧ storeFirstOnly fpSecond = none := by
  decide

end VelvetAir
